import Mathlib

/-!
# Verification of the indiekit-endpoint-rss feed-synchronization engine

A shallow embedding of the core of `@rmdes/indiekit-endpoint-rss`:

* `src/lib/rss-client.js` — the feed parser/normalizer (the
  Google-Reader-style aggregator JSON item mapping and the syndication-XML
  item transform), and
* `src/lib/sync.js` — the sync orchestrator (`runSync`, `syncFeed`,
  `pruneOldItems`) over an explicit document-store model.

JavaScript's `||` coalescing is value-sensitive (`0`, `""`, `null` and
`undefined` are all falsy), so the embedding models optional JS values as
`Option` and reproduces truthiness explicitly rather than treating `||`
as an option-`orElse`. Machine-time subtleties: timestamps are epoch
milliseconds as `Int`; `cutoff.setDate(getDate() - retentionDays)` is
modelled as subtracting `retentionDays * 86400000` milliseconds.

Subroutines of the source whose behaviour rests on JavaScript regular
expressions or the host `Date` parser (`extractJsonItemImage`,
`extractDescription`, `extractItemImage`, `new Date(string)`) are taken as
function parameters of the embedding: every theorem quantifies over them,
so nothing proved depends on their behaviour.

Concurrency: `processFeedsWithLimit` drives per-feed syncs with a bounded
concurrency ceiling but collects results aligned with input order; each
per-feed task touches only its own feed document and its own `(feedId,
guid)` item keys, so the embedding sequentializes the fold (`syncFeeds`).
-/

/-! ## JavaScript value semantics helpers -/

/-- JS `a || b` on strings: `""` is falsy, every other string truthy. -/
def jsOrStr (a b : String) : String :=
  if a = "" then b else a

/-- JS truthiness coercion of a possibly-absent string to
string-or-`null`: `undefined`, `null` and `""` all collapse to `none`. -/
def jsTruthy (v : Option String) : Option String :=
  match v with
  | some s => if s = "" then none else some s
  | none => none

/-- JS `v || d` for a possibly-absent numeric option value: an explicit
`0` is falsy and therefore replaced by the default, exactly like an absent
value. Embeds the `options.x || DEFAULT` reads in `sync.js` and the
`RssClient` constructor. -/
def jsOrNat (v : Option Nat) (d : Nat) : Nat :=
  match v with
  | some n => if n = 0 then d else n
  | none => d

/-- Does the character list start with the pattern? -/
def charsStart : List Char → List Char → Bool
  | [], _ => true
  | _ :: _, [] => false
  | p :: ps, c :: cs => p == c && charsStart ps cs

/-- Does the character list contain the pattern as a contiguous run? -/
def charsContain (pat : List Char) : List Char → Bool
  | [] => charsStart pat []
  | c :: cs => charsStart pat (c :: cs) || charsContain pat cs

/-- JS `String.prototype.includes`: substring containment. -/
def strIncludes (s pat : String) : Bool :=
  charsContain pat.data s.data

/-- JS template interpolation of `pubDate?.getTime()`: a null date prints
as the literal string `undefined` inside the template. -/
def millisStr (pd : Option Int) : String :=
  match pd with
  | some m => toString m
  | none => "undefined"

/-! ## Normalized data model (§3 of the spec, from the source records) -/

/-- A media enclosure attached to an item (`{url, type, length}`). -/
structure Enclosure where
  url : Option String
  type : Option String
  length : Option Int
deriving Repr, DecidableEq

/-- The aggregator `origin` sub-record copied verbatim into an item
(`parseGoogleReaderJson`, `src/lib/rss-client.js:181-186`). -/
structure GROrigin where
  streamId : Option String
  title : Option String
  htmlUrl : Option String
  feedUrl : Option String
deriving Repr, DecidableEq

/-- The normalized item produced by every parser dialect and consumed by
the sync engine. `pubDate` is epoch milliseconds; `guid` is `Option`
because the Google-Reader mapping can resolve every fallback to `null`. -/
structure NormItem where
  guid : Option String
  title : String
  link : Option String
  description : String
  content : String
  author : Option String
  pubDate : Option Int
  imageUrl : Option String
  categories : List String
  enclosure : Option Enclosure
  origin : Option GROrigin
  sourceTitle : Option String
  sourceUrl : Option String
deriving Repr, DecidableEq

/-! ## Google-Reader-style aggregator JSON items
(`parseGoogleReaderJson`, `src/lib/rss-client.js:116-194`) -/

/-- A JS value that is an object with an optional inner `content` string,
a bare string, or absent — the shapes `item.content` / `item.summary`
take in FreshRSS payloads (`rss-client.js:141-146`). -/
inductive GRContent where
  | absent
  | str (s : String)
  | obj (inner : Option String)
deriving Repr, DecidableEq

/-- One entry of a `canonical` / `alternate` array: an object with an
optional `href`. -/
structure GRLink where
  href : Option String
deriving Repr, DecidableEq

/-- A raw Google-Reader-style aggregator JSON item, as the fields
`parseGoogleReaderJson` probes. `timestampUsec` and `crawlTimeMsec` hold
the numeric value of the source's (nonempty, hence truthy) numeric
string, as consumed by `parseInt`. -/
structure GRItem where
  frssId : Option String
  id : Option String
  guid : Option String
  title : Option String
  published : Option Int
  timestampUsec : Option Int
  crawlTimeMsec : Option Int
  content : GRContent
  summary : GRContent
  canonical : List GRLink
  alternate : List GRLink
  link : Option String
  categories : List String
  author : Option String
  enclosure : Option Enclosure
  image : Option String
  origin : Option GROrigin
deriving Repr, DecidableEq

/-- The `item.x?.content || ...` access: the inner `content` field of an
object-shaped value, with `undefined` collapsing into the falsy chain. -/
def grInner (c : GRContent) : String :=
  match c with
  | .obj (some s) => s
  | _ => ""

/-- The `typeof item.x === "string" ? item.x : ""` access. -/
def grStrVal (c : GRContent) : String :=
  match c with
  | .str s => s
  | _ => ""

/-- Content extraction from the FreshRSS structures
(`rss-client.js:141-146`): `item.content?.content ||
(typeof item.content === "string" ? item.content : "") ||
item.summary?.content ||
(typeof item.summary === "string" ? item.summary : "") || ""`. -/
def grContentOf (it : GRItem) : String :=
  jsOrStr (grInner it.content)
    (jsOrStr (grStrVal it.content)
      (jsOrStr (grInner it.summary) (grStrVal it.summary)))

/-- Link extraction (`rss-client.js:148-152`): `item.canonical?.[0]?.href
|| item.alternate?.[0]?.href || item.link || null`. -/
def grLinkOf (it : GRItem) : Option String :=
  (jsTruthy (it.canonical.head?.bind (·.href))).orElse fun _ =>
    (jsTruthy (it.alternate.head?.bind (·.href))).orElse fun _ =>
      jsTruthy it.link

/-- pubDate resolution (`rss-client.js:128-139`): `if (item.published)`
— a numeric field, so `0` is falsy — seconds times 1000; `else if
(item.timestampUsec)` — a nonempty numeric string, always truthy —
`parseInt / 1000`; `else if (item.crawlTimeMsec)` milliseconds; else
`null`. -/
def grPubDate (it : GRItem) : Option Int :=
  match it.published with
  | some p =>
    if p = 0 then grPubDateFallback it else some (p * 1000)
  | none => grPubDateFallback it
where
  /-- The `timestampUsec` / `crawlTimeMsec` branches. -/
  grPubDateFallback (it : GRItem) : Option Int :=
    match it.timestampUsec with
    | some u => some (u / 1000)
    | none =>
      match it.crawlTimeMsec with
      | some c => some c
      | none => none

/-- The category filter (`rss-client.js:154-159`): drop internal FreshRSS
state tags and `user/` labels, keep genuine user-visible tags. -/
def grKeepCat (cat : String) : Bool :=
  !(strIncludes cat "state/com.google/") &&
    !(strIncludes cat "state/org.freshrss/") &&
      !(cat.startsWith "user/")

/-- The per-item mapping of `parseGoogleReaderJson`
(`src/lib/rss-client.js:127-191`). `extractImage` stands for
`this.extractJsonItemImage(item, content)` and `extractDesc` for
`this.extractDescription(content, item.summary)`, both regex-driven in
the source and therefore taken as parameters. -/
def parseGRItem (extractImage : GRItem → String → Option String)
    (extractDesc : String → GRContent → String) (it : GRItem) : NormItem :=
  let content := grContentOf it
  let link := grLinkOf it
  { guid := (jsTruthy it.frssId).orElse fun _ =>
      (jsTruthy it.id).orElse fun _ => (jsTruthy it.guid).orElse fun _ => link
    title := (jsTruthy it.title).getD "Untitled"
    link := link
    description := extractDesc content it.summary
    content := content
    author := jsTruthy it.author
    pubDate := grPubDate it
    imageUrl := extractImage it content
    categories := it.categories.filter grKeepCat
    enclosure := it.enclosure
    origin := it.origin.map fun o =>
      { streamId := o.streamId, title := o.title
        htmlUrl := o.htmlUrl, feedUrl := o.feedUrl }
    sourceTitle := jsTruthy (it.origin.bind (·.title))
    sourceUrl := jsTruthy (it.origin.bind (·.htmlUrl)) }

/-! ## Syndication-XML item transform
(`transformItem`, `src/lib/rss-client.js:365-379`) -/

/-- One entry of an rss-parser `categories` array: a bare string or an
object probed as `cat.name || cat.term`. -/
inductive XmlCat where
  | str (s : String)
  | obj (name : Option String) (term : Option String)
deriving Repr, DecidableEq

/-- A raw rss-parser enclosure: `url`, `type`, and a `length` already
run through `parseInt` (the source guards with truthiness then parses). -/
structure XmlEnclosure where
  url : Option String
  type : Option String
  length : Option Int
deriving Repr, DecidableEq

/-- A raw rss-parser item, as the fields `transformItem` and its helpers
probe. `media` / `mediaThumbnail` feed only the regex-driven image
extractor, which is a parameter of the embedding, so they are omitted. -/
structure XmlItem where
  guid : Option String
  id : Option String
  link : Option String
  title : Option String
  contentSnippet : Option String
  summary : Option String
  contentEncoded : Option String
  content : Option String
  creator : Option String
  author : Option String
  dcCreator : Option String
  pubDate : Option String
  isoDate : Option String
  categories : List XmlCat
  enclosure : Option XmlEnclosure
deriving Repr, DecidableEq

/-- The parsed publish timestamp of an XML item:
`this.parseDate(item.pubDate || item.isoDate)` with `dateParse` standing
for the host `new Date(string)` parser (`rss-client.js:366,447-452`);
`parseDate` of an absent value is `null`, and an unparsable string yields
`none` through `dateParse` itself. -/
def xmlPubDate (dateParse : String → Option Int) (it : XmlItem) : Option Int :=
  match (jsTruthy it.pubDate).orElse fun _ => jsTruthy it.isoDate with
  | some s => dateParse s
  | none => none

/-- `extractCategories` (`rss-client.js:421-426`): coerce each entry to
`typeof cat === "string" ? cat : cat.name || cat.term`, then
`.filter(Boolean)`. -/
def xmlCategories (cats : List XmlCat) : List String :=
  cats.filterMap fun c =>
    match c with
    | .str s => jsTruthy (some s)
    | .obj n t => jsTruthy ((jsTruthy n).orElse fun _ => t)

/-- `extractEnclosure` (`rss-client.js:433-440`). -/
def xmlEnclosure (e : Option XmlEnclosure) : Option Enclosure :=
  e.map fun enc => { url := enc.url, type := jsTruthy enc.type, length := enc.length }

/-- The syndication-XML item transform (`transformItem`,
`src/lib/rss-client.js:365-379`). `extractImg` stands for the
regex-driven `this.extractItemImage(item)`. The guid chain is
`item.guid || item.id || item.link ||` the synthesized
`` `${feedUrl}#${pubDate?.getTime()}` `` template. -/
def transformItem (dateParse : String → Option Int)
    (extractImg : XmlItem → Option String) (it : XmlItem)
    (feedUrl : String) : NormItem :=
  let pubDate := xmlPubDate dateParse it
  { guid := some ((((jsTruthy it.guid).orElse fun _ =>
      (jsTruthy it.id).orElse fun _ => jsTruthy it.link)).getD
        (feedUrl ++ "#" ++ millisStr pubDate))
    title := (jsTruthy it.title).getD "Untitled"
    link := jsTruthy it.link
    description := jsOrStr ((jsTruthy it.contentSnippet).getD "")
      ((jsTruthy it.summary).getD "")
    content := jsOrStr ((jsTruthy it.contentEncoded).getD "")
      (jsOrStr ((jsTruthy it.content).getD "")
        ((jsTruthy it.summary).getD ""))
    author := (jsTruthy it.creator).orElse fun _ =>
      (jsTruthy it.author).orElse fun _ => jsTruthy it.dcCreator
    pubDate := pubDate
    imageUrl := extractImg it
    categories := xmlCategories it.categories
    enclosure := xmlEnclosure it.enclosure
    origin := none
    sourceTitle := none
    sourceUrl := none }

/-! ## The document-store model and sync state (§3, `src/lib/sync.js`) -/

/-- A subscribed feed document in the `rssFeeds` collection. `id` models
the Mongo `_id` surrogate key. -/
structure Feed where
  id : Nat
  url : String
  enabled : Bool
  title : String
  siteUrl : String
  description : String
  imageUrl : Option String
  lastFetchedAt : Option Int
  lastError : Option String
  itemCount : Nat
deriving Repr, DecidableEq

/-- A stored item document in the `rssItems` collection: the
`{feedId, feedTitle, ...item, fetchedAt}` spread of `syncFeed`
(`sync.js:195-200`). The natural key is `(feedId, item.guid)`. -/
structure ItemDoc where
  feedId : Nat
  feedTitle : String
  item : NormItem
  fetchedAt : Int
deriving Repr, DecidableEq

/-- The document store: the `rssFeeds` and `rssItems` collections. -/
structure DB where
  feeds : List Feed
  items : List ItemDoc
deriving Repr, DecidableEq

/-- The process-wide sync state singleton (`sync.js:4-10`). -/
structure SyncState where
  lastSync : Option Int
  syncing : Bool
  lastError : Option String
  feedsProcessed : Nat
  itemsAdded : Nat
deriving Repr, DecidableEq

/-- Plugin options as read by `sync.js` and the `RssClient` constructor;
every field is read through JS `||`-coalescing (`jsOrNat`). -/
structure Options where
  syncInterval : Option Nat
  fetchTimeout : Option Nat
  maxConcurrentFetches : Option Nat
  retentionDays : Option Nat
  maxItemsPerFeed : Option Nat
deriving Repr, DecidableEq

/-- Feed metadata produced by a successful fetch-and-parse. -/
structure FeedMeta where
  title : String
  siteUrl : String
  description : String
  imageUrl : Option String
deriving Repr, DecidableEq

/-- A successful `fetchFeed` outcome: feed metadata plus the normalized
item list. A failed fetch is the thrown error message; `syncFeed` has a
single failure branch for all of them (§4.2). -/
structure FetchOk where
  feed : FeedMeta
  items : List NormItem
deriving Repr, DecidableEq

/-- The per-feed result of `syncFeed` (`sync.js:223,239`). -/
structure FeedResult where
  feedId : Nat
  itemsAdded : Nat
  error : Option String
deriving Repr, DecidableEq

/-- The value returned by one `runSync` call: either the error object
(`{error}`) or `{feedsProcessed, itemsAdded, itemsPruned}` — the
empty-feed short-circuit (`sync.js:98`) carries no `itemsPruned`. -/
inductive RunResult where
  | err (msg : String)
  | ok (feedsProcessed : Nat) (itemsAdded : Nat) (itemsPruned : Option Nat)
deriving Repr, DecidableEq

/-! ## Store primitives -/

/-- `feedsCollection.updateOne({_id: i}, {$set: ...})`: apply `g` to the
feed document with id `i` (ids are unique in the store, mirroring Mongo
`_id`). -/
def updateFeed (db : DB) (i : Nat) (g : Feed → Feed) : DB :=
  { db with feeds := db.feeds.map fun f => if f.id = i then g f else f }

/-- Does the items collection hold a document with the natural key
`(feedId, guid)`? -/
def hasKey (db : DB) (fid : Nat) (g : Option String) : Bool :=
  db.items.any fun d => d.feedId = fid && d.item.guid = g

/-- `itemsCollection.updateOne({feedId, guid}, {$setOnInsert: doc},
{upsert: true})` (`sync.js:189-203`): insert-only-if-absent; returns
whether `upsertedCount > 0`. -/
def upsertItem (db : DB) (fid : Nat) (g : Option String) (doc : ItemDoc) :
    Bool × DB :=
  if hasKey db fid g then (false, db)
  else (true, { db with items := db.items ++ [doc] })

/-- `itemsCollection.countDocuments({feedId})`. -/
def countFeedItems (db : DB) (fid : Nat) : Nat :=
  db.items.countP fun d => d.feedId = fid

/-- Look up a feed document by id. -/
def findFeed (db : DB) (i : Nat) : Option Feed :=
  db.feeds.find? fun f => f.id = i

/-! ## The per-feed sync algorithm (`syncFeed`, `src/lib/sync.js:156-241`) -/

/-- The item-insertion loop of `syncFeed` (`sync.js:187-214`): upsert
each truncated item by `(feedId, guid)`, counting first-time inserts.
The swallowed duplicate-key race (`err.code === 11000`) cannot occur in
the single-threaded model, where the upsert itself never throws. -/
def upsertItems (fid : Nat) (feedTitle : String) (its : List NormItem)
    (now : Int) (db : DB) : Nat × DB :=
  match its with
  | [] => (0, db)
  | it :: tl =>
    let step := upsertItem db fid it.guid
      { feedId := fid, feedTitle := feedTitle, item := it, fetchedAt := now }
    let rest := upsertItems fid feedTitle tl now step.2
    ((if step.1 then 1 else 0) + rest.1, rest.2)

/-- `options.maxItemsPerFeed || 50` (`sync.js:163`). -/
def feedItemCap (opts : Options) : Nat :=
  jsOrNat opts.maxItemsPerFeed 50

/-- One per-feed sync (`syncFeed`, `src/lib/sync.js:156-241`). The fetch
outcome is passed in (`client.fetchFeed(feed.url)` resolved or thrown).
On failure the error is recovered here — never re-raised to the caller —
after persisting `lastFetchedAt` and `lastError` onto the feed. On
success: refresh feed metadata, truncate to the item cap, upsert items,
then recount and persist `itemCount`. -/
def syncFeed (feed : Feed) (db : DB) (fetch : Except String FetchOk)
    (now : Int) (opts : Options) : FeedResult × DB :=
  match fetch with
  | .error msg =>
    (⟨feed.id, 0, some msg⟩,
      updateFeed db feed.id fun f =>
        { f with lastFetchedAt := some now, lastError := some msg })
  | .ok res =>
    let db1 := updateFeed db feed.id fun f =>
      { f with title := res.feed.title, siteUrl := res.feed.siteUrl,
               description := res.feed.description,
               imageUrl := res.feed.imageUrl,
               lastFetchedAt := some now, lastError := none }
    let recent := res.items.take (feedItemCap opts)
    let step := upsertItems feed.id res.feed.title recent now db1
    let db3 := updateFeed step.2 feed.id fun f =>
      { f with itemCount := countFeedItems step.2 feed.id }
    (⟨feed.id, step.1, none⟩, db3)

/-- The per-cycle drive over the enabled feeds. The source runs
`processFeedsWithLimit` (`sync.js:308-326`) with a concurrency ceiling
but aligns results with input order and each task touches only its own
feed document and its own `(feedId, guid)` keys, so the embedding
sequentializes the fold. The fetch oracle is keyed by the feed URL —
`client.fetchFeed(feed.url)` reads nothing else from the document. -/
def syncFeeds (fs : List Feed) (db : DB)
    (oracle : String → Except String FetchOk) (now : Int) (opts : Options) :
    List FeedResult × DB :=
  match fs with
  | [] => ([], db)
  | f :: rest =>
    let step := syncFeed f db (oracle f.url) now opts
    let next := syncFeeds rest step.2 oracle now opts
    (step.1 :: next.1, next.2)

/-! ## Pruning (`pruneOldItems`, `src/lib/sync.js:267-299`) -/

/-- The retention cutoff: `cutoff.setDate(getDate() - retentionDays)`
modelled as `now` minus `retentionDays` days of milliseconds. -/
def pruneCutoff (now : Int) (retentionDays : Nat) : Int :=
  now - retentionDays * 86400000

/-- Does the delete filter `{pubDate: {$lt: cutoff}}` match the stored
document? A `null` `pubDate` never matches a `$lt` bound. -/
def prunable (cutoff : Int) (d : ItemDoc) : Bool :=
  match d.item.pubDate with
  | some p => p < cutoff
  | none => false

/-- `pruneOldItems` (`src/lib/sync.js:267-299`): bulk-delete items older
than the cutoff; when anything was deleted, recount and persist
`itemCount` for every feed; return the deleted count. The internal
`try/catch` returning 0 guards store faults, which the pure store model
does not produce. -/
def pruneOldItems (db : DB) (now : Int) (retentionDays : Nat) : Nat × DB :=
  let cutoff := pruneCutoff now retentionDays
  let deleted := db.items.countP (prunable cutoff)
  let db1 := { db with items := db.items.filter fun d => !prunable cutoff d }
  if deleted = 0 then (deleted, db1)
  else
    (deleted,
      { db1 with feeds := db1.feeds.map fun f =>
          { f with itemCount := countFeedItems db1 f.id } })

/-! ## The sync cycle (`runSync`, `src/lib/sync.js:64-145`) -/

/-- `options.syncInterval || 900_000` (`startSync`, `sync.js:26`). -/
def startSyncIntervalMs (opts : Options) : Nat :=
  jsOrNat opts.syncInterval 900000

/-- `options.fetchTimeout || 10_000` (`runSync`, `sync.js:82`; the
`RssClient` constructor coalesces the same way, `rss-client.js:9`). -/
def runSyncClientTimeout (opts : Options) : Nat :=
  jsOrNat opts.fetchTimeout 10000

/-- `options.maxConcurrentFetches || 3` (`runSync`, `sync.js:102`). -/
def runSyncMaxConcurrent (opts : Options) : Nat :=
  jsOrNat opts.maxConcurrentFetches 3

/-- `options.retentionDays || 30` (`runSync`, `sync.js:120`). -/
def runSyncRetentionDays (opts : Options) : Nat :=
  jsOrNat opts.retentionDays 30

/-- The per-result aggregation loop (`sync.js:112-117`): add each
result's `itemsAdded` (the `if (result.itemsAdded)` truthiness guard
only skips adding zero) and increment `feedsProcessed` once per result,
failed feeds included. -/
def aggregateResults (st : SyncState) (rs : List FeedResult) : SyncState :=
  rs.foldl
    (fun s r =>
      { s with itemsAdded := s.itemsAdded + r.itemsAdded,
               feedsProcessed := s.feedsProcessed + 1 })
    st

/-- One sync cycle (`runSync`, `src/lib/sync.js:64-145`). `db?` is the
resolved database (`none` models a missing or unusable `db.collection`);
`indexState` is the awaited outcome of `createIndexes`, the cycle body's
first store operation and the model's injection point for a cycle-level
exception — the surrounding `try/catch` records the message into
`lastError` and forces `syncing` back to `false` (`sync.js:139-144`).
Returns the call's value, the final sync state, and the final store. -/
def runSync (db? : Option DB) (st : SyncState)
    (oracle : String → Except String FetchOk)
    (indexState : Except String Unit) (now : Int) (opts : Options) :
    RunResult × SyncState × Option DB :=
  match db? with
  | none =>
    (.err "No database available",
      { st with lastError := some "No database available" }, none)
  | some db =>
    if st.syncing then (.err "Sync already in progress", st, some db)
    else
      let st1 : SyncState :=
        { st with syncing := true, lastError := none,
                  feedsProcessed := 0, itemsAdded := 0 }
      match indexState with
      | .error msg =>
        (.err msg, { st1 with lastError := some msg, syncing := false },
          some db)
      | .ok _ =>
        let feeds := db.feeds.filter (·.enabled)
        if feeds.isEmpty then
          (.ok 0 0 none,
            { st1 with lastSync := some now, syncing := false }, some db)
        else
          let run := syncFeeds feeds db oracle now opts
          let st2 := aggregateResults st1 run.1
          let pr := pruneOldItems run.2 now (runSyncRetentionDays opts)
          (.ok st2.feedsProcessed st2.itemsAdded (some pr.1),
            { st2 with lastSync := some now, syncing := false },
            some pr.2)

/-! ## Concrete sample data for witnesses and counterexamples -/

/-- A Google-Reader item with every probed field absent. -/
def grBaseItem : GRItem :=
  { frssId := none, id := none, guid := none, title := none,
    published := none, timestampUsec := none, crawlTimeMsec := none,
    content := .absent, summary := .absent, canonical := [], alternate := [],
    link := none, categories := [], author := none, enclosure := none,
    image := none, origin := none }

/-- An image extractor standing in for the regex-driven
`extractJsonItemImage` at concrete instantiations. -/
def noImage : GRItem → String → Option String := fun _ _ => none

/-- A description extractor standing in for the regex-driven
`extractDescription` at concrete instantiations. -/
def noDesc : String → GRContent → String := fun _ _ => ""

/-- An aggregator item whose `author` is the empty string while an
`origin` with a title is present. -/
def grEmptyAuthorItem : GRItem :=
  { grBaseItem with
    author := some ""
    origin := some ⟨some "feed/1", some "Upstream Blog", some "https://up.example", none⟩ }

/-- An aggregator item with no `author` but an `origin` carrying a title. -/
def grNoAuthorItem : GRItem :=
  { grBaseItem with
    origin := some ⟨some "feed/2", some "Upstream Title", some "https://o.example", none⟩ }

/-- An aggregator item with a genuine author and an origin. -/
def grAliceItem : GRItem :=
  { grBaseItem with
    author := some "Alice"
    origin := some ⟨none, some "Upstream", none, none⟩ }

/-- The §8 scenario item: one internal state tag and one user tag. -/
def grScenarioItem : GRItem :=
  { grBaseItem with categories := ["state/com.google/read", "news"] }

/-- An aggregator item whose `published` is the falsy `0` while
`crawlTimeMsec` is present. -/
def grZeroPublishedItem : GRItem :=
  { grBaseItem with published := some 0, crawlTimeMsec := some 5000 }

/-- An aggregator item with a nonzero seconds-since-epoch `published`. -/
def grPublishedItem : GRItem :=
  { grBaseItem with published := some 2, timestampUsec := some 999 }

/-- An aggregator item resolving its date from `timestampUsec`. -/
def grUsecItem : GRItem :=
  { grBaseItem with timestampUsec := some 5000, crawlTimeMsec := some 7 }

/-- An XML item with every probed field absent. -/
def xmlBaseItem : XmlItem :=
  { guid := none, id := none, link := none, title := none,
    contentSnippet := none, summary := none, contentEncoded := none,
    content := none, creator := none, author := none, dcCreator := none,
    pubDate := none, isoDate := none, categories := [], enclosure := none }

/-- A date parser standing in for the host `new Date(string)` at concrete
instantiations. -/
def noDate : String → Option Int := fun _ => none

/-- An image extractor standing in for the regex-driven
`extractItemImage` at concrete instantiations. -/
def noXmlImage : XmlItem → Option String := fun _ => none

/-- A minimal enabled feed document. -/
def sampleFeed : Feed :=
  { id := 1, url := "https://example.org/feed", enabled := true, title := "",
    siteUrl := "", description := "", imageUrl := none,
    lastFetchedAt := none, lastError := none, itemCount := 0 }

/-- A second enabled feed document with a distinct id and url. -/
def sampleFeed2 : Feed :=
  { id := 2, url := "https://example.net/feed", enabled := true, title := "",
    siteUrl := "", description := "", imageUrl := none,
    lastFetchedAt := none, lastError := none, itemCount := 0 }

/-- A normalized item with a recent publish date. -/
def sampleItem : NormItem :=
  { guid := some "item-1", title := "t", link := none, description := "",
    content := "", author := none, pubDate := some 2592000001, imageUrl := none,
    categories := [], enclosure := none, origin := none,
    sourceTitle := none, sourceUrl := none }

/-- A normalized item whose publish date predates any retention window. -/
def staleItem : NormItem :=
  { sampleItem with guid := some "stale-1", pubDate := some 0 }

/-- Feed metadata as produced by a successful fetch. -/
def sampleMeta : FeedMeta :=
  { title := "Feed T", siteUrl := "https://example.org", description := "",
    imageUrl := none }

/-- The idle process-start sync state. -/
def idleState : SyncState :=
  { lastSync := none, syncing := false, lastError := none,
    feedsProcessed := 0, itemsAdded := 0 }

/-- A sync state captured mid-cycle (`syncing = true`). -/
def busyState : SyncState :=
  { idleState with syncing := true, feedsProcessed := 4, itemsAdded := 7 }

/-- A two-feed store with no cached items. -/
def sampleDB : DB := { feeds := [sampleFeed, sampleFeed2], items := [] }

/-- An oracle serving one recent item on the first feed and failing the
second with a transport error. -/
def sampleOracle : String → Except String FetchOk := fun url =>
  if url = "https://example.org/feed" then .ok ⟨sampleMeta, [sampleItem]⟩
  else .error "Failed to fetch feed: HTTP 502: Bad Gateway"

/-- An oracle serving a single stale item (older than every retention
window) on every feed. -/
def staleOracle : String → Except String FetchOk := fun _ =>
  .ok ⟨sampleMeta, [staleItem]⟩

/-- All options left unset. -/
def defOpts : Options := ⟨none, none, none, none, none⟩

/-- A cycle timestamp one millisecond past thirty days of epoch time, so
the default retention cutoff is positive. -/
def sampleNow : Int := 2592000001

/-! ## Claim theorems -/

/-- C1: a `runSync` call while a cycle is in progress returns the
"already in progress" error and leaves the sync state and the store
completely untouched; a call with no usable database returns the
"no database" error immediately — beyond the guard's own recording of
that message into `lastError`, no sync state (`syncing`, `lastSync`,
`feedsProcessed`, `itemsAdded`) and no store data is touched. -/
theorem runSync_guard_rejects (db : DB) (st : SyncState)
    (oracle : String → Except String FetchOk) (ix : Except String Unit)
    (now : Int) (opts : Options) (h : st.syncing = true) :
    runSync (some db) st oracle ix now opts
        = (.err "Sync already in progress", st, some db)
    ∧ runSync none st oracle ix now opts
        = (.err "No database available",
            { st with lastError := some "No database available" }, none) := by
  constructor
  · simp [runSync, h]
  · rfl

/-- C1 witness: the guard at a concrete busy state and a concrete
missing store. -/
theorem runSync_guard_rejects_witness :
    runSync (some sampleDB) busyState sampleOracle (.ok ()) sampleNow defOpts
        = (.err "Sync already in progress", busyState, some sampleDB)
    ∧ runSync none busyState sampleOracle (.ok ()) sampleNow defOpts
        = (.err "No database available",
            { busyState with lastError := some "No database available" },
            none) :=
  runSync_guard_rejects sampleDB busyState sampleOracle (.ok ()) sampleNow
    defOpts rfl

/-- C4: an exception escaping the cycle body is caught at the cycle
level — the message is recorded into `lastError`, the state is forced
back to idle, and the call reports that error; moreover no `runSync`
return path that entered the syncing state leaves `syncing` true: from
an idle state, every outcome (missing store, injected body exception,
empty feed list, full cycle) ends with `syncing = false`. -/
theorem runSync_cycle_error_recovery (db : DB) (st : SyncState)
    (oracle : String → Except String FetchOk) (msg : String) (now : Int)
    (opts : Options) (h : st.syncing = false) :
    runSync (some db) st oracle (.error msg) now opts
        = (.err msg,
            { st with syncing := false, lastError := some msg,
                      feedsProcessed := 0, itemsAdded := 0 }, some db)
    ∧ (∀ (db2? : Option DB) (ix : Except String Unit),
        ((runSync db2? st oracle ix now opts).2.1).syncing = false) := by
  refine ⟨by simp [runSync, h], ?_⟩
  intro db2? ix
  match db2? with
  | none => simp [runSync, h]
  | some db2 =>
    match ix with
    | .error m => simp [runSync, h]
    | .ok _ =>
      by_cases he : (db2.feeds.filter (·.enabled)).isEmpty <;>
        simp [runSync, h, he]

/-- C4 witness: the catch at a concrete store, idle state and injected
index-creation failure. -/
theorem runSync_cycle_error_recovery_witness :
    runSync (some sampleDB) idleState sampleOracle
        (.error "index build failed") sampleNow defOpts
        = (.err "index build failed",
            { idleState with syncing := false,
                             lastError := some "index build failed",
                             feedsProcessed := 0, itemsAdded := 0 },
            some sampleDB)
    ∧ ((runSync (some sampleDB) idleState sampleOracle (.ok ()) sampleNow
          defOpts).2.1).syncing = false :=
  ⟨(runSync_cycle_error_recovery sampleDB idleState sampleOracle
      "index build failed" sampleNow defOpts rfl).1,
   (runSync_cycle_error_recovery sampleDB idleState sampleOracle
      "index build failed" sampleNow defOpts rfl).2 (some sampleDB) (.ok ())⟩

/-- C5: the prune pass deletes exactly the stored items whose `pubDate`
is older than `now` minus the retention window — a `null` `pubDate`
never matches the delete filter, so such items always survive — returns
the count of deleted items, and when that count is zero the per-feed
`itemCount` recount is skipped entirely: the store is returned
untouched. -/
theorem pruneOldItems_spec (db : DB) (now : Int) (rd : Nat) :
    (pruneOldItems db now rd).1 = db.items.countP (prunable (pruneCutoff now rd))
    ∧ ((pruneOldItems db now rd).2).items
        = db.items.filter (fun d => !prunable (pruneCutoff now rd) d)
    ∧ (∀ d ∈ db.items, d.item.pubDate = none →
        d ∈ ((pruneOldItems db now rd).2).items)
    ∧ ((pruneOldItems db now rd).1 = 0 → (pruneOldItems db now rd).2 = db) := by
  have hmem : ∀ d ∈ db.items, d.item.pubDate = none →
      d ∈ db.items.filter (fun d => !prunable (pruneCutoff now rd) d) := by
    intro d hd hnull
    exact List.mem_filter.mpr ⟨hd, by simp [prunable, hnull]⟩
  unfold pruneOldItems
  by_cases h0 : db.items.countP (prunable (pruneCutoff now rd)) = 0
  · refine ⟨by simp [h0], by simp [h0], by simpa [h0] using hmem, ?_⟩
    intro _
    have hall := List.countP_eq_zero.mp h0
    have : db.items.filter (fun d => !prunable (pruneCutoff now rd) d)
        = db.items := by
      apply List.filter_eq_self.mpr
      intro a ha
      simp [hall a ha]
    simp [h0, this]
  · exact ⟨by simp [h0], by simp [h0], by simpa [h0] using hmem,
      fun hc => absurd (by simp [h0] at hc) h0⟩

/-- C5 witness: a store holding one stale item, one fresh item and one
undated item — exactly the stale one is deleted, the undated one
survives; and on an all-fresh store, zero deletions return the store
untouched. -/
theorem pruneOldItems_spec_witness :
    (pruneOldItems
        { feeds := [sampleFeed],
          items := [⟨1, "T", staleItem, 1⟩, ⟨1, "T", sampleItem, 1⟩,
            ⟨1, "T", { sampleItem with guid := some "nodate", pubDate := none },
              1⟩] }
        sampleNow 30).1 = 1
    ∧ (⟨1, "T", { sampleItem with guid := some "nodate", pubDate := none }, 1⟩
        : ItemDoc) ∈
        ((pruneOldItems
          { feeds := [sampleFeed],
            items := [⟨1, "T", staleItem, 1⟩, ⟨1, "T", sampleItem, 1⟩,
              ⟨1, "T", { sampleItem with guid := some "nodate", pubDate := none },
                1⟩] }
          sampleNow 30).2).items
    ∧ (pruneOldItems { feeds := [sampleFeed], items := [⟨1, "T", sampleItem, 1⟩] }
        sampleNow 30).2
        = { feeds := [sampleFeed], items := [⟨1, "T", sampleItem, 1⟩] } := by
  refine ⟨?_, ?_, ?_⟩
  · exact (pruneOldItems_spec _ sampleNow 30).1.trans (by decide)
  · exact (pruneOldItems_spec _ sampleNow 30).2.2.1 _ (by decide) rfl
  · exact (pruneOldItems_spec _ sampleNow 30).2.2.2 (by decide)

/-- C6 counterexample: an item whose `author` field holds the empty
string — a present field — normalizes to a `null` author rather than to
the field's value: the normalized author does not equal the item's own
author field at this input. -/
theorem parseGRItem_author_empty_string_cex :
    (parseGRItem noImage noDesc grEmptyAuthorItem).author
      ≠ grEmptyAuthorItem.author := by decide

/-- C6 (amended): the normalized author is derived solely from the
item's own author field — it equals that field whenever the field holds
a truthy (nonempty) string and is `null` when the field is absent or
holds the empty string (JS falsiness); the upstream source's title is
never substituted: the normalized author is independent of the `origin`
object, even when the author field is missing and an origin is
present. -/
theorem parseGRItem_author_from_own_field
    (eI : GRItem → String → Option String)
    (eD : String → GRContent → String) (it : GRItem) (o : Option GROrigin) :
    (parseGRItem eI eD { it with origin := o }).author
        = (parseGRItem eI eD { it with origin := none }).author
    ∧ (it.author = none → (parseGRItem eI eD it).author = none)
    ∧ (∀ a, it.author = some a → a ≠ "" →
        (parseGRItem eI eD it).author = some a)
    ∧ (it.author = some "" → (parseGRItem eI eD it).author = none) := by
  refine ⟨rfl, fun h => by simp [parseGRItem, jsTruthy, h], ?_,
    fun h => by simp [parseGRItem, jsTruthy, h]⟩
  intro a ha hne
  simp [parseGRItem, jsTruthy, ha, hne]

/-- C6 witness: with no author and an origin titled "Upstream Title" the
normalized author is `null`; a genuine author "Alice" survives unchanged
beside an origin; and an empty-string author beside a titled origin
normalizes to `null`, not to the origin's title. -/
theorem parseGRItem_author_from_own_field_witness :
    (parseGRItem noImage noDesc grNoAuthorItem).author = none
    ∧ (parseGRItem noImage noDesc grAliceItem).author = some "Alice"
    ∧ (parseGRItem noImage noDesc grEmptyAuthorItem).author = none :=
  ⟨(parseGRItem_author_from_own_field noImage noDesc grNoAuthorItem
      none).2.1 rfl,
   (parseGRItem_author_from_own_field noImage noDesc grAliceItem
      none).2.2.1 "Alice" rfl (by decide),
   (parseGRItem_author_from_own_field noImage noDesc grEmptyAuthorItem
      none).2.2.2 rfl⟩

/-- C7: the normalized categories are exactly the source categories that
neither contain an internal-state marker namespace
(`state/com.google/`, `state/org.freshrss/`) nor start with the `user/`
label, kept in source order (a sublist of the source list); in
particular the §8 scenario item carrying `state/com.google/read` and the
user tag `news` normalizes to `["news"]`. -/
theorem parseGRItem_categories_filter
    (eI : GRItem → String → Option String)
    (eD : String → GRContent → String) (it : GRItem) (c : String) :
    ((parseGRItem eI eD it).categories.Sublist it.categories)
    ∧ (c ∈ (parseGRItem eI eD it).categories ↔
        c ∈ it.categories
          ∧ strIncludes c "state/com.google/" = false
          ∧ strIncludes c "state/org.freshrss/" = false
          ∧ c.startsWith "user/" = false)
    ∧ (parseGRItem noImage noDesc grScenarioItem).categories = ["news"] := by
  refine ⟨List.filter_sublist _, ?_, by decide⟩
  show c ∈ it.categories.filter grKeepCat ↔ _
  rw [List.mem_filter]
  simp [grKeepCat, and_assoc]

/-- C7 witness: the filter characterization applied at the scenario item
— `news` is kept and the internal state tag is dropped. -/
theorem parseGRItem_categories_filter_witness :
    "news" ∈ (parseGRItem noImage noDesc grScenarioItem).categories
    ∧ "state/com.google/read" ∉
        (parseGRItem noImage noDesc grScenarioItem).categories :=
  ⟨(parseGRItem_categories_filter noImage noDesc grScenarioItem
      "news").2.1.mpr ⟨by decide, by decide, by decide, by decide⟩,
   fun hmem =>
     absurd ((parseGRItem_categories_filter noImage noDesc
       grScenarioItem "state/com.google/read").2.1.mp hmem).2.1 (by decide)⟩

/-- C8 counterexample: an item with `published = 0` — a present field —
and `crawlTimeMsec = 5000` resolves its date from `crawlTimeMsec`,
not from `published * 1000`: JS truthiness skips the zero. -/
theorem grPubDate_zero_published_cex :
    (parseGRItem noImage noDesc grZeroPublishedItem).pubDate
      ≠ grZeroPublishedItem.published.map (· * 1000) := by decide

/-- C8 (amended): pubDate resolution order, with `published` consulted
only when present and nonzero (a zero `published` is falsy in JS and is
treated as absent): a present nonzero `published` is seconds since epoch
(times 1000); else a present `timestampUsec` is microseconds (divided by
1000); else a present `crawlTimeMsec` is milliseconds; else the date is
`null`. -/
theorem grPubDate_resolution_order (eI : GRItem → String → Option String)
    (eD : String → GRContent → String) (it : GRItem) :
    (∀ p, it.published = some p → p ≠ 0 →
        (parseGRItem eI eD it).pubDate = some (p * 1000))
    ∧ ((it.published = none ∨ it.published = some 0) →
        (∀ u, it.timestampUsec = some u →
            (parseGRItem eI eD it).pubDate = some (u / 1000))
        ∧ (it.timestampUsec = none →
            (∀ m, it.crawlTimeMsec = some m →
                (parseGRItem eI eD it).pubDate = some m)
            ∧ (it.crawlTimeMsec = none →
                (parseGRItem eI eD it).pubDate = none))) := by
  constructor
  · intro p hp hne
    simp [parseGRItem, grPubDate, hp, hne]
  · intro hz
    have hfall : (parseGRItem eI eD it).pubDate = grPubDate.grPubDateFallback it := by
      rcases hz with h | h <;> simp [parseGRItem, grPubDate, h]
    refine ⟨fun u hu => ?_, fun hnu => ⟨fun m hm => ?_, fun hnm => ?_⟩⟩
    · rw [hfall]; simp [grPubDate.grPubDateFallback, hu]
    · rw [hfall]; simp [grPubDate.grPubDateFallback, hnu, hm]
    · rw [hfall]; simp [grPubDate.grPubDateFallback, hnu, hnm]

/-- C8 witness: the resolution order applied at concrete items — a
nonzero `published = 2` yields 2000 milliseconds even though
`timestampUsec` is present, and with `published` absent a
`timestampUsec = 5000` yields 5 milliseconds, shadowing
`crawlTimeMsec`. -/
theorem grPubDate_resolution_order_witness :
    (parseGRItem noImage noDesc grPublishedItem).pubDate = some 2000
    ∧ (parseGRItem noImage noDesc grUsecItem).pubDate = some 5 :=
  ⟨(grPubDate_resolution_order noImage noDesc grPublishedItem).1 2 rfl
      (by decide),
   ((grPubDate_resolution_order noImage noDesc grUsecItem).2
      (Or.inl rfl)).1 5000 rfl⟩

/-- C9: guid synthesis is deterministic and depends only on the feed URL
and the parsed publish timestamp: an XML item lacking a truthy guid, id
and link gets the synthesized guid built from the feed URL and the epoch
milliseconds of its parsed date, so any two items lacking native
identifiers whose parsed timestamps agree — in particular two parses of
the identical raw payload — synthesize the same guid. -/
theorem transformItem_guid_determinism (dateParse : String → Option Int)
    (eImg : XmlItem → Option String) (it it2 : XmlItem) (feedUrl : String)
    (h1 : jsTruthy it.guid = none) (h2 : jsTruthy it.id = none)
    (h3 : jsTruthy it.link = none) :
    (transformItem dateParse eImg it feedUrl).guid
        = some (feedUrl ++ "#" ++ millisStr (xmlPubDate dateParse it))
    ∧ (jsTruthy it2.guid = none → jsTruthy it2.id = none →
        jsTruthy it2.link = none →
        xmlPubDate dateParse it2 = xmlPubDate dateParse it →
        (transformItem dateParse eImg it2 feedUrl).guid
          = (transformItem dateParse eImg it feedUrl).guid) := by
  have hbase : ∀ (j : XmlItem), jsTruthy j.guid = none → jsTruthy j.id = none →
      jsTruthy j.link = none →
      (transformItem dateParse eImg j feedUrl).guid
        = some (feedUrl ++ "#" ++ millisStr (xmlPubDate dateParse j)) := by
    intro j hg hi hl
    simp [transformItem, hg, hi, hl, Option.orElse]
  refine ⟨hbase it h1 h2 h3, fun hg hi hl hdate => ?_⟩
  rw [hbase it2 hg hi hl, hbase it h1 h2 h3, hdate]

/-- C9 witness: the synthesized guid at a concrete identifier-less item,
and its agreement with a second parse of the same payload. -/
theorem transformItem_guid_determinism_witness :
    (transformItem noDate noXmlImage xmlBaseItem "https://example.org/feed").guid
        = some ("https://example.org/feed" ++ "#"
            ++ millisStr (xmlPubDate noDate xmlBaseItem))
    ∧ (transformItem noDate noXmlImage xmlBaseItem "https://example.org/feed").guid
        = (transformItem noDate noXmlImage xmlBaseItem
            "https://example.org/feed").guid :=
  ⟨(transformItem_guid_determinism noDate noXmlImage xmlBaseItem xmlBaseItem
      "https://example.org/feed" rfl rfl rfl).1,
   (transformItem_guid_determinism noDate noXmlImage xmlBaseItem xmlBaseItem
      "https://example.org/feed" rfl rfl rfl).2 rfl rfl rfl rfl⟩

/-- C10: every option read through JS `||`-coalescing treats an explicit
`0` as unset and silently substitutes the documented default — interval
900000 ms, fetch timeout 10000 ms, concurrency 3, retention 30 days —
and in particular `maxItemsPerFeed = 0` makes `syncFeed` behave exactly
as a cap of 50 items per feed, not 0. -/
theorem options_zero_uses_default (opts : Options) (feed : Feed) (db : DB)
    (fetch : Except String FetchOk) (now : Int)
    (h : opts.maxItemsPerFeed = some 0) :
    startSyncIntervalMs { opts with syncInterval := some 0 } = 900000
    ∧ runSyncClientTimeout { opts with fetchTimeout := some 0 } = 10000
    ∧ runSyncMaxConcurrent { opts with maxConcurrentFetches := some 0 } = 3
    ∧ runSyncRetentionDays { opts with retentionDays := some 0 } = 30
    ∧ feedItemCap opts = 50
    ∧ syncFeed feed db fetch now opts
        = syncFeed feed db fetch now { opts with maxItemsPerFeed := some 50 } := by
  refine ⟨rfl, rfl, rfl, rfl, by simp [feedItemCap, jsOrNat, h], ?_⟩
  match fetch with
  | .error msg => rfl
  | .ok res => simp [syncFeed, feedItemCap, jsOrNat, h]

/-- C10 witness: a feed serving 51 items under `maxItemsPerFeed = 0`
inserts 50 items, exactly as under an explicit cap of 50. -/
theorem options_zero_uses_default_witness :
    startSyncIntervalMs { defOpts with syncInterval := some 0 } = 900000
    ∧ syncFeed sampleFeed { feeds := [sampleFeed], items := [] }
        (.ok ⟨sampleMeta,
          (List.range 51).map fun i =>
            { sampleItem with guid := some (toString i) }⟩)
        sampleNow { defOpts with maxItemsPerFeed := some 0 }
      = syncFeed sampleFeed { feeds := [sampleFeed], items := [] }
        (.ok ⟨sampleMeta,
          (List.range 51).map fun i =>
            { sampleItem with guid := some (toString i) }⟩)
        sampleNow { defOpts with maxItemsPerFeed := some 50 } := by
  refine ⟨(options_zero_uses_default { defOpts with maxItemsPerFeed := some 0 }
    sampleFeed { feeds := [sampleFeed], items := [] } (.error "") sampleNow
    rfl).1, ?_⟩
  exact (options_zero_uses_default { defOpts with maxItemsPerFeed := some 0 }
    sampleFeed { feeds := [sampleFeed], items := [] }
    (.ok ⟨sampleMeta,
      (List.range 51).map fun i =>
        { sampleItem with guid := some (toString i) }⟩)
    sampleNow rfl).2.2.2.2.2

/-! ## Cycle-level lemmas -/

/-- `syncFeeds` produces one result per input feed, in order. -/
theorem syncFeeds_length (fs : List Feed) (db : DB)
    (oracle : String → Except String FetchOk) (now : Int) (opts : Options) :
    (syncFeeds fs db oracle now opts).1.length = fs.length := by
  induction fs generalizing db with
  | nil => rfl
  | cons f tl ih => simp [syncFeeds, ih]

/-- The aggregation loop adds the result count to `feedsProcessed` and
the summed per-feed inserts to `itemsAdded`, leaving the rest of the
state alone. -/
theorem aggregateResults_spec (rs : List FeedResult) (st : SyncState) :
    aggregateResults st rs
      = { st with feedsProcessed := st.feedsProcessed + rs.length,
                  itemsAdded := st.itemsAdded + (rs.map (·.itemsAdded)).sum } := by
  induction rs generalizing st with
  | nil => cases st; simp [aggregateResults]
  | cons r tl ih =>
    have hstep : aggregateResults st (r :: tl)
        = aggregateResults
            { st with itemsAdded := st.itemsAdded + r.itemsAdded,
                      feedsProcessed := st.feedsProcessed + 1 } tl := rfl
    rw [hstep, ih]
    cases st
    simp
    omega

/-- Every per-feed result either carries no error (a succeeding feed) or
contributes zero items-added (the recovered failure branch). -/
theorem syncFeeds_ok_or_zero (fs : List Feed) (db : DB)
    (oracle : String → Except String FetchOk) (now : Int) (opts : Options) :
    ∀ r ∈ (syncFeeds fs db oracle now opts).1,
      r.error = none ∨ r.itemsAdded = 0 := by
  induction fs generalizing db with
  | nil => intro r hr; cases hr
  | cons f tl ih =>
    intro r hr
    rw [syncFeeds] at hr
    rcases List.mem_cons.mp hr with hr | hr
    · subst hr
      match hfetch : oracle f.url with
      | .error msg => right; simp [syncFeed, hfetch]
      | .ok res => left; simp [syncFeed, hfetch]
    · exact ih _ r hr

/-- When every erroring result contributes zero, the total equals the
sum over the error-free (succeeding) results alone. -/
theorem sum_itemsAdded_filter_ok (rs : List FeedResult)
    (h : ∀ r ∈ rs, r.error = none ∨ r.itemsAdded = 0) :
    (rs.map (·.itemsAdded)).sum
      = ((rs.filter fun r => r.error.isNone).map (·.itemsAdded)).sum := by
  induction rs with
  | nil => rfl
  | cons r tl ih =>
    have htl := ih fun x hx => h x (List.mem_cons_of_mem r hx)
    rcases h r (List.mem_cons_self r tl) with hok | hzero
    · simp [List.filter_cons, hok, htl]
    · by_cases he : r.error.isNone <;> simp [List.filter_cons, he, hzero, htl]

/-- `find?` by id commutes with mapping an id-preserving function over
the feed list. -/
theorem find?_id_map (l : List Feed) (g : Feed → Feed) (j : Nat)
    (hg : ∀ f, (g f).id = f.id) :
    (l.map g).find? (fun f => f.id = j) = (l.find? (fun f => f.id = j)).map g := by
  induction l with
  | nil => rfl
  | cons a tl ih =>
    by_cases ha : a.id = j
    · simp [List.find?_cons, hg, ha]
    · simp [List.find?_cons, hg, ha, ih]

/-- The document `findFeed` returns carries the id it was looked up by. -/
theorem findFeed_id (db : DB) (j : Nat) (f : Feed)
    (h : findFeed db j = some f) : f.id = j := by
  have := List.find?_some h
  simpa using this

/-- `updateFeed` acts on lookups as the conditional per-document update,
provided the update preserves ids. -/
theorem findFeed_updateFeed (db : DB) (i j : Nat) (g : Feed → Feed)
    (hg : ∀ f, (g f).id = f.id) :
    findFeed (updateFeed db i g) j
      = (findFeed db j).map fun f => if f.id = i then g f else f := by
  unfold findFeed updateFeed
  exact find?_id_map db.feeds _ j fun f => by
    by_cases h : f.id = i <;> simp [h, hg]

/-- `updateFeed` leaves lookups of other ids untouched. -/
theorem findFeed_updateFeed_ne (db : DB) (i j : Nat) (g : Feed → Feed)
    (hj : j ≠ i) (hg : ∀ f, (g f).id = f.id) :
    findFeed (updateFeed db i g) j = findFeed db j := by
  rw [findFeed_updateFeed db i j g hg]
  match hf : findFeed db j with
  | none => rfl
  | some f =>
    have hid := findFeed_id db j f hf
    simp [hid, hj]

/-- The upsert loop never touches the feeds collection. -/
theorem upsertItems_feeds (fid : Nat) (t : String) (its : List NormItem)
    (now : Int) (db : DB) :
    (upsertItems fid t its now db).2.feeds = db.feeds := by
  induction its generalizing db with
  | nil => rfl
  | cons it tl ih =>
    rw [upsertItems]
    rw [ih]
    unfold upsertItem
    split <;> rfl

/-- `findFeed` reads only the feeds collection. -/
theorem findFeed_congr_feeds (db db2 : DB) (j : Nat) (h : db.feeds = db2.feeds) :
    findFeed db j = findFeed db2 j := by
  unfold findFeed
  rw [h]

/-- A per-feed sync touches no feed document other than its own. -/
theorem findFeed_syncFeed_ne (feed : Feed) (db : DB)
    (fetch : Except String FetchOk) (now : Int) (opts : Options) (j : Nat)
    (hj : j ≠ feed.id) :
    findFeed (syncFeed feed db fetch now opts).2 j = findFeed db j := by
  match fetch with
  | .error msg =>
    exact findFeed_updateFeed_ne db feed.id j _ hj fun f => rfl
  | .ok res =>
    show findFeed (updateFeed _ feed.id _) j = _
    refine Eq.trans (findFeed_updateFeed_ne _ feed.id j _ hj fun f => rfl) ?_
    refine Eq.trans (findFeed_congr_feeds _ _ j (upsertItems_feeds _ _ _ _ _)) ?_
    exact findFeed_updateFeed_ne db feed.id j _ hj fun f => rfl

/-- Driving feeds whose ids all differ from `j` leaves the document with
id `j` untouched. -/
theorem findFeed_syncFeeds_notMem (fs : List Feed) (db : DB)
    (oracle : String → Except String FetchOk) (now : Int) (opts : Options)
    (j : Nat) (hj : ∀ f ∈ fs, j ≠ f.id) :
    findFeed (syncFeeds fs db oracle now opts).2 j = findFeed db j := by
  induction fs generalizing db with
  | nil => rfl
  | cons f tl ih =>
    show findFeed (syncFeeds tl (syncFeed f db (oracle f.url) now opts).2
      oracle now opts).2 j = _
    rw [ih _ fun g hg => hj g (List.mem_cons_of_mem f hg)]
    exact findFeed_syncFeed_ne f db _ now opts j (hj f (List.mem_cons_self f tl))

/-- After the cycle's per-feed drive, the document of a feed whose fetch
failed carries the conditional error update — no later feed clobbers it
(ids are distinct). -/
theorem findFeed_syncFeeds_fail (fs : List Feed) (db : DB)
    (oracle : String → Except String FetchOk) (now : Int) (opts : Options)
    (f0 : Feed) (e : String)
    (hnd : (fs.map (·.id)).Nodup) (hmem : f0 ∈ fs)
    (hfail : oracle f0.url = .error e) :
    findFeed (syncFeeds fs db oracle now opts).2 f0.id
      = (findFeed db f0.id).map fun f =>
          if f.id = f0.id then
            { f with lastFetchedAt := some now, lastError := some e }
          else f := by
  induction fs generalizing db with
  | nil => cases hmem
  | cons f tl ih =>
    have hnd' : (f.id ∉ tl.map (·.id)) ∧ (tl.map (·.id)).Nodup :=
      List.nodup_cons.mp (by simpa using hnd)
    rcases List.mem_cons.mp hmem with rfl | hmem2
    · show findFeed (syncFeeds tl (syncFeed f0 db (oracle f0.url) now opts).2
        oracle now opts).2 f0.id = _
      rw [findFeed_syncFeeds_notMem tl _ oracle now opts f0.id
        (fun g hg he => hnd'.1 (he ▸ List.mem_map_of_mem (·.id) hg))]
      rw [hfail]
      exact findFeed_updateFeed db f0.id f0.id _ fun f => rfl
    · have hne : f0.id ≠ f.id := fun he =>
        hnd'.1 (he ▸ List.mem_map_of_mem (·.id) hmem2)
      show findFeed (syncFeeds tl (syncFeed f db (oracle f.url) now opts).2
        oracle now opts).2 f0.id = _
      rw [ih _ hnd'.2 hmem2]
      rw [findFeed_syncFeed_ne f db _ now opts f0.id hne]

/-- Pruning preserves every feed document's `lastError` and
`lastFetchedAt` (the recount pass rewrites only `itemCount`). -/
theorem findFeed_pruneOldItems (db : DB) (now : Int) (rd : Nat) (j : Nat) :
    ((findFeed (pruneOldItems db now rd).2 j).map fun f =>
        (f.lastError, f.lastFetchedAt))
      = (findFeed db j).map fun f => (f.lastError, f.lastFetchedAt) := by
  by_cases h0 : db.items.countP (prunable (pruneCutoff now rd)) = 0
  · have h1 : (pruneOldItems db now rd).2
        = { db with items := db.items.filter (fun d => !prunable (pruneCutoff now rd) d) } := by
      simp [pruneOldItems, h0]
    have h2 : findFeed { db with items := db.items.filter (fun d => !prunable (pruneCutoff now rd) d) } j = findFeed db j :=
      findFeed_congr_feeds _ db j rfl
    rw [h1, h2]
  · have h1 : (pruneOldItems db now rd).2.feeds
        = db.feeds.map fun f =>
            { f with itemCount := countFeedItems { db with items := db.items.filter (fun d => !prunable (pruneCutoff now rd) d) } f.id } := by
      simp [pruneOldItems, h0]
    unfold findFeed
    rw [h1]
    rw [find?_id_map db.feeds
      (fun f => { f with itemCount := countFeedItems { db with items := db.items.filter (fun d => !prunable (pruneCutoff now rd) d) } f.id })
      j (fun f => rfl)]
    rw [Option.map_map]
    rfl

/-- With pairwise-distinct ids, lookup by a member's id finds exactly
that member. -/
theorem find?_id_of_nodup (l : List Feed) (f0 : Feed)
    (hnd : (l.map (·.id)).Nodup) (hmem : f0 ∈ l) :
    l.find? (fun f => f.id = f0.id) = some f0 := by
  induction l with
  | nil => cases hmem
  | cons a tl ih =>
    have hnd' : (a.id ∉ tl.map (·.id)) ∧ (tl.map (·.id)).Nodup :=
      List.nodup_cons.mp (by simpa using hnd)
    rcases List.mem_cons.mp hmem with rfl | hmem2
    · rw [List.find?_cons_of_pos _ (by simp)]
    · have hane : ¬(a.id = f0.id) := fun he =>
        hnd'.1 (he ▸ List.mem_map_of_mem (·.id) hmem2)
      rw [List.find?_cons_of_neg _ (by simp [hane])]
      exact ih hnd'.2 hmem2

/-- C2: in a cycle where one enabled feed's fetch fails, the per-feed
sync of the failing feed does not raise — it evaluates to a result
carrying zero items-added and the error, persisting `lastFetchedAt` and
`lastError` onto that feed — while the cycle reports `feedsProcessed`
equal to the number of enabled feeds (failures still count) and
`itemsAdded` equal to the sum of the error-free (succeeding) feeds'
first-time inserts only; after the cycle the failing feed's stored
document still carries the error and the fetch timestamp. -/
theorem runSync_partial_failure_isolation (db : DB) (st : SyncState)
    (oracle : String → Except String FetchOk) (now : Int) (opts : Options)
    (f0 : Feed) (e : String)
    (hidle : st.syncing = false)
    (hids : (db.feeds.map (·.id)).Nodup)
    (hmem : f0 ∈ db.feeds) (hen : f0.enabled = true)
    (hfail : oracle f0.url = .error e)
    (_hothers : ∀ f ∈ db.feeds, f.enabled = true → f.id ≠ f0.id →
        ∃ v, oracle f.url = Except.ok v) :
    (∀ d : DB, syncFeed f0 d (.error e) now opts
        = (⟨f0.id, 0, some e⟩,
            updateFeed d f0.id fun f =>
              { f with lastFetchedAt := some now, lastError := some e }))
    ∧ (runSync (some db) st oracle (.ok ()) now opts).1
        = .ok (db.feeds.filter (·.enabled)).length
            ((((syncFeeds (db.feeds.filter (·.enabled)) db oracle now opts).1.filter
                fun r => r.error.isNone).map (·.itemsAdded)).sum)
            (some (pruneOldItems
              (syncFeeds (db.feeds.filter (·.enabled)) db oracle now opts).2
              now (runSyncRetentionDays opts)).1)
    ∧ ((findFeed (pruneOldItems
          (syncFeeds (db.feeds.filter (·.enabled)) db oracle now opts).2
          now (runSyncRetentionDays opts)).2 f0.id).map
        fun f => (f.lastError, f.lastFetchedAt)) = some (some e, some now)
    ∧ (runSync (some db) st oracle (.ok ()) now opts).2.2
        = some (pruneOldItems
            (syncFeeds (db.feeds.filter (·.enabled)) db oracle now opts).2
            now (runSyncRetentionDays opts)).2 := by
  have hmemE : f0 ∈ db.feeds.filter (·.enabled) :=
    List.mem_filter.mpr ⟨hmem, hen⟩
  have hne : ¬(db.feeds.filter (·.enabled)).isEmpty = true := by
    intro h
    rw [List.isEmpty_iff.mp h] at hmemE
    cases hmemE
  have hndE : ((db.feeds.filter (·.enabled)).map (·.id)).Nodup :=
    List.Nodup.sublist (List.Sublist.map _ (List.filter_sublist _)) hids
  have hrun : runSync (some db) st oracle (.ok ()) now opts
      = (.ok (aggregateResults
            { st with syncing := true, lastError := none,
                      feedsProcessed := 0, itemsAdded := 0 }
            (syncFeeds (db.feeds.filter (·.enabled)) db oracle now opts).1).feedsProcessed
          (aggregateResults
            { st with syncing := true, lastError := none,
                      feedsProcessed := 0, itemsAdded := 0 }
            (syncFeeds (db.feeds.filter (·.enabled)) db oracle now opts).1).itemsAdded
          (some (pruneOldItems
            (syncFeeds (db.feeds.filter (·.enabled)) db oracle now opts).2
            now (runSyncRetentionDays opts)).1),
         { aggregateResults
            { st with syncing := true, lastError := none,
                      feedsProcessed := 0, itemsAdded := 0 }
            (syncFeeds (db.feeds.filter (·.enabled)) db oracle now opts).1
            with lastSync := some now, syncing := false },
         some (pruneOldItems
            (syncFeeds (db.feeds.filter (·.enabled)) db oracle now opts).2
            now (runSyncRetentionDays opts)).2) := by
    simp [runSync, hidle, hne]
  have hagg := aggregateResults_spec
    (syncFeeds (db.feeds.filter (·.enabled)) db oracle now opts).1
    { st with syncing := true, lastError := none,
              feedsProcessed := 0, itemsAdded := 0 }
  refine ⟨fun d => rfl, ?_, ?_, ?_⟩
  · rw [hrun, hagg]
    have hsum := sum_itemsAdded_filter_ok
      (syncFeeds (db.feeds.filter (·.enabled)) db oracle now opts).1
      (syncFeeds_ok_or_zero _ db oracle now opts)
    simp [syncFeeds_length, hsum]
  · rw [findFeed_pruneOldItems]
    rw [findFeed_syncFeeds_fail _ db oracle now opts f0 e hndE hmemE hfail]
    have hfind : findFeed db f0.id = some f0 := find?_id_of_nodup db.feeds f0 hids hmem
    rw [hfind]
    simp
  · rw [hrun]

/-- C2 witness: over the two-feed store where the second feed's fetch
fails with a transport error, the cycle reports two feeds processed and
one item added (the succeeding feed's insert only), and the failing
feed's stored document carries the error message and the fetch
timestamp. -/
theorem runSync_partial_failure_isolation_witness :
    (runSync (some sampleDB) idleState sampleOracle (.ok ()) sampleNow defOpts).1
        = .ok 2 1 (some 0)
    ∧ ((findFeed (pruneOldItems
          (syncFeeds (sampleDB.feeds.filter (·.enabled)) sampleDB sampleOracle
            sampleNow defOpts).2
          sampleNow (runSyncRetentionDays defOpts)).2 sampleFeed2.id).map
        fun f => (f.lastError, f.lastFetchedAt))
        = some (some "Failed to fetch feed: HTTP 502: Bad Gateway",
            some sampleNow) := by
  have h := runSync_partial_failure_isolation sampleDB idleState sampleOracle
    sampleNow defOpts sampleFeed2 "Failed to fetch feed: HTTP 502: Bad Gateway"
    rfl (by decide) (by decide) rfl rfl
    (by
      intro f hf henf hne
      have hcases : f = sampleFeed ∨ f = sampleFeed2 := by
        simpa [sampleDB] using hf
      rcases hcases with rfl | rfl
      · exact ⟨⟨sampleMeta, [sampleItem]⟩, rfl⟩
      · exact absurd rfl hne)
  exact ⟨h.2.1.trans (by decide), h.2.2.1⟩

/-! ## Idempotence lemmas: the items collection is append-only during the
feed drive, every fetched key is present afterwards, and a prune over
exclusively fresh items is the identity. -/

/-- A normalized item the prune pass cannot delete: its date is null or
at least the cutoff. -/
def freshItem (cutoff : Int) (it : NormItem) : Prop :=
  ∀ p, it.pubDate = some p → cutoff ≤ p

/-- A fresh item's stored document never matches the delete filter. -/
theorem prunable_eq_false_of_fresh (cutoff : Int) (d : ItemDoc)
    (h : freshItem cutoff d.item) : prunable cutoff d = false := by
  unfold prunable
  match hp : d.item.pubDate with
  | none => rfl
  | some p =>
    have := h p hp
    simp
    omega

/-- The upsert loop only appends to the items collection. -/
theorem upsertItems_items_append (fid : Nat) (t : String) (its : List NormItem)
    (now : Int) (db : DB) :
    ∃ tail, (upsertItems fid t its now db).2.items = db.items ++ tail := by
  induction its generalizing db with
  | nil => exact ⟨[], (List.append_nil _).symm⟩
  | cons it tl ih =>
    rw [upsertItems]
    unfold upsertItem
    by_cases h : hasKey db fid it.guid
    · simpa [h] using ih db
    · rcases ih { db with items := db.items ++
        [{ feedId := fid, feedTitle := t, item := it, fetchedAt := now }] } with ⟨tail, htail⟩
      refine ⟨{ feedId := fid, feedTitle := t, item := it, fetchedAt := now } :: tail, ?_⟩
      rw [if_neg h]
      show (upsertItems fid t tl now { db with items := db.items ++
        [{ feedId := fid, feedTitle := t, item := it, fetchedAt := now }] }).2.items = _
      rw [htail]
      simp

/-- A per-feed sync only appends to the items collection. -/
theorem syncFeed_items_append (feed : Feed) (db : DB)
    (fetch : Except String FetchOk) (now : Int) (opts : Options) :
    ∃ tail, (syncFeed feed db fetch now opts).2.items = db.items ++ tail := by
  match fetch with
  | .error msg => exact ⟨[], (List.append_nil _).symm⟩
  | .ok res =>
    show ∃ tail, (updateFeed (upsertItems _ _ _ _ _).2 _ _).items = _
    rcases upsertItems_items_append feed.id res.feed.title
      (res.items.take (feedItemCap opts)) now
      (updateFeed db feed.id fun f =>
        { f with title := res.feed.title, siteUrl := res.feed.siteUrl,
                 description := res.feed.description,
                 imageUrl := res.feed.imageUrl,
                 lastFetchedAt := some now, lastError := none }) with ⟨tail, htail⟩
    exact ⟨tail, htail⟩

/-- The whole feed drive only appends to the items collection. -/
theorem syncFeeds_items_append (fs : List Feed) (db : DB)
    (oracle : String → Except String FetchOk) (now : Int) (opts : Options) :
    ∃ tail, (syncFeeds fs db oracle now opts).2.items = db.items ++ tail := by
  induction fs generalizing db with
  | nil => exact ⟨[], (List.append_nil _).symm⟩
  | cons f tl ih =>
    rcases syncFeed_items_append f db (oracle f.url) now opts with ⟨t1, h1⟩
    rcases ih (syncFeed f db (oracle f.url) now opts).2 with ⟨t2, h2⟩
    exact ⟨t1 ++ t2, by
      show (syncFeeds tl (syncFeed f db (oracle f.url) now opts).2
        oracle now opts).2.items = _
      rw [h2, h1, List.append_assoc]⟩

/-- Key presence only grows under appends. -/
theorem hasKey_append (db : DB) (tail : List ItemDoc) (fid : Nat)
    (g : Option String) (h : hasKey db fid g = true) :
    hasKey { db with items := db.items ++ tail } fid g = true := by
  unfold hasKey at h ⊢
  rw [List.any_append, h, Bool.true_or]

/-- Key presence ignores the feeds collection. -/
theorem hasKey_congr_items (db db2 : DB) (fid : Nat) (g : Option String)
    (h : db.items = db2.items) : hasKey db fid g = hasKey db2 fid g := by
  unfold hasKey
  rw [h]

/-- After the upsert loop, every processed item's key is present. -/
theorem upsertItems_hasKey (fid : Nat) (t : String) (its : List NormItem)
    (now : Int) (db : DB) :
    ∀ it ∈ its, hasKey (upsertItems fid t its now db).2 fid it.guid = true := by
  induction its generalizing db with
  | nil => intro it h; cases h
  | cons hd tl ih =>
    intro it hmem
    rw [upsertItems]
    rcases List.mem_cons.mp hmem with rfl | hmem2
    · have hstep : hasKey (upsertItem db fid it.guid
          { feedId := fid, feedTitle := t, item := it, fetchedAt := now }).2
            fid it.guid = true := by
        unfold upsertItem
        by_cases h : hasKey db fid it.guid
        · simp [h]
        · rw [if_neg h]
          show hasKey { db with items := db.items ++
            [{ feedId := fid, feedTitle := t, item := it, fetchedAt := now }] }
            fid it.guid = true
          unfold hasKey
          rw [List.any_append]
          simp
      rcases upsertItems_items_append fid t tl now
        (upsertItem db fid it.guid
          { feedId := fid, feedTitle := t, item := it, fetchedAt := now }).2
        with ⟨tail, htail⟩
      show hasKey (upsertItems fid t tl now _).2 fid it.guid = true
      rw [hasKey_congr_items _ { (upsertItem db fid it.guid
          { feedId := fid, feedTitle := t, item := it, fetchedAt := now }).2
            with items := (upsertItem db fid it.guid
              { feedId := fid, feedTitle := t, item := it, fetchedAt := now }).2.items
              ++ tail } fid it.guid htail]
      exact hasKey_append _ tail fid it.guid hstep
    · exact ih _ it hmem2

/-- After a successful per-feed sync, every truncated fetched item's key
is present under that feed. -/
theorem syncFeed_hasKey (feed : Feed) (db : DB) (res : FetchOk) (now : Int)
    (opts : Options) :
    ∀ it ∈ res.items.take (feedItemCap opts),
      hasKey (syncFeed feed db (.ok res) now opts).2 feed.id it.guid = true := by
  intro it hmem
  exact upsertItems_hasKey feed.id res.feed.title
    (res.items.take (feedItemCap opts)) now
    (updateFeed db feed.id fun f =>
      { f with title := res.feed.title, siteUrl := res.feed.siteUrl,
               description := res.feed.description,
               imageUrl := res.feed.imageUrl,
               lastFetchedAt := some now, lastError := none }) it hmem

/-- Key presence only grows when the items list grows by appending. -/
theorem hasKey_mono_of_append (db db2 : DB) (fid : Nat) (g : Option String)
    (htail : ∃ t, db2.items = db.items ++ t) (h : hasKey db fid g = true) :
    hasKey db2 fid g = true := by
  rcases htail with ⟨t, ht⟩
  unfold hasKey at h ⊢
  rw [ht, List.any_append, h, Bool.true_or]

/-- Key presence is monotone across a per-feed sync. -/
theorem hasKey_syncFeed_mono (feed : Feed) (db : DB)
    (fetch : Except String FetchOk) (now : Int) (opts : Options) (fid : Nat)
    (g : Option String) (h : hasKey db fid g = true) :
    hasKey (syncFeed feed db fetch now opts).2 fid g = true :=
  hasKey_mono_of_append db _ fid g (syncFeed_items_append feed db fetch now opts) h

/-- Key presence is monotone across the whole feed drive. -/
theorem hasKey_syncFeeds_mono (fs : List Feed) (db : DB)
    (oracle : String → Except String FetchOk) (now : Int) (opts : Options)
    (fid : Nat) (g : Option String) (h : hasKey db fid g = true) :
    hasKey (syncFeeds fs db oracle now opts).2 fid g = true :=
  hasKey_mono_of_append db _ fid g (syncFeeds_items_append fs db oracle now opts) h

/-- After the feed drive, every item fetched for a successfully fetched
member feed (after truncation) has its key present in the store. -/
theorem syncFeeds_hasKey (fs : List Feed) (db : DB)
    (oracle : String → Except String FetchOk) (now : Int) (opts : Options) :
    ∀ f ∈ fs, ∀ res, oracle f.url = .ok res →
      ∀ it ∈ res.items.take (feedItemCap opts),
        hasKey (syncFeeds fs db oracle now opts).2 f.id it.guid = true := by
  induction fs generalizing db with
  | nil => intro f hf; cases hf
  | cons hd tl ih =>
    intro f hf res hres it hit
    rcases List.mem_cons.mp hf with rfl | hf2
    · show hasKey (syncFeeds tl (syncFeed f db (oracle f.url) now opts).2
        oracle now opts).2 f.id it.guid = true
      apply hasKey_syncFeeds_mono
      rw [hres]
      exact syncFeed_hasKey f db res now opts it hit
    · exact ih _ f hf2 res hres it hit

/-- Provenance through the upsert loop: every stored document was
already stored or wraps one of the processed items. -/
theorem upsertItems_items_from (fid : Nat) (t : String) (its : List NormItem)
    (now : Int) (db : DB) :
    ∀ d ∈ (upsertItems fid t its now db).2.items,
      d ∈ db.items ∨ d.item ∈ its := by
  induction its generalizing db with
  | nil => intro d hd; exact Or.inl hd
  | cons it tl ih =>
    intro d hd
    rw [upsertItems] at hd
    unfold upsertItem at hd
    by_cases h : hasKey db fid it.guid
    · rw [if_pos h] at hd
      rcases ih db d hd with hl | hr
      · exact Or.inl hl
      · exact Or.inr (List.mem_cons_of_mem it hr)
    · rw [if_neg h] at hd
      rcases ih { db with items := db.items ++
          [{ feedId := fid, feedTitle := t, item := it, fetchedAt := now }] }
          d hd with hl | hr
      · rcases List.mem_append.mp hl with hll | hlr
        · exact Or.inl hll
        · rcases List.mem_singleton.mp hlr with rfl
          exact Or.inr (List.mem_cons_self it tl)
      · exact Or.inr (List.mem_cons_of_mem it hr)

/-- Provenance through a per-feed sync. -/
theorem syncFeed_items_from (feed : Feed) (db : DB)
    (fetch : Except String FetchOk) (now : Int) (opts : Options) :
    ∀ d ∈ (syncFeed feed db fetch now opts).2.items,
      d ∈ db.items ∨ ∃ res, fetch = .ok res
        ∧ d.item ∈ res.items.take (feedItemCap opts) := by
  intro d hd
  match fetch with
  | .error msg => exact Or.inl hd
  | .ok res =>
    rcases upsertItems_items_from feed.id res.feed.title
      (res.items.take (feedItemCap opts)) now
      (updateFeed db feed.id fun f =>
        { f with title := res.feed.title, siteUrl := res.feed.siteUrl,
                 description := res.feed.description,
                 imageUrl := res.feed.imageUrl,
                 lastFetchedAt := some now, lastError := none }) d hd with hl | hr
    · exact Or.inl hl
    · exact Or.inr ⟨res, rfl, hr⟩

/-- Provenance through the feed drive. -/
theorem syncFeeds_items_from (fs : List Feed) (db : DB)
    (oracle : String → Except String FetchOk) (now : Int) (opts : Options) :
    ∀ d ∈ (syncFeeds fs db oracle now opts).2.items,
      d ∈ db.items ∨ ∃ f ∈ fs, ∃ res, oracle f.url = .ok res
        ∧ d.item ∈ res.items.take (feedItemCap opts) := by
  induction fs generalizing db with
  | nil => intro d hd; exact Or.inl hd
  | cons hd tl ih =>
    intro d hmem
    have hmem' : d ∈ (syncFeeds tl (syncFeed hd db (oracle hd.url) now opts).2
        oracle now opts).2.items := hmem
    rcases ih _ d hmem' with hl | ⟨f, hf, res, hres, hit⟩
    · rcases syncFeed_items_from hd db (oracle hd.url) now opts d hl with
        hll | ⟨res, hres, hit⟩
      · exact Or.inl hll
      · exact Or.inr ⟨hd, List.mem_cons_self hd tl, res, hres, hit⟩
    · exact Or.inr ⟨f, List.mem_cons_of_mem hd hf, res, hres, hit⟩

/-- A prune pass over a store with no prunable item is the identity. -/
theorem pruneOldItems_eq_self (db : DB) (now : Int) (rd : Nat)
    (h : ∀ d ∈ db.items, prunable (pruneCutoff now rd) d = false) :
    pruneOldItems db now rd = (0, db) := by
  have h0 : db.items.countP (prunable (pruneCutoff now rd)) = 0 :=
    List.countP_eq_zero.mpr fun d hd => by simp [h d hd]
  have hfilter : db.items.filter (fun d => !prunable (pruneCutoff now rd) d)
      = db.items :=
    List.filter_eq_self.mpr fun d hd => by simp [h d hd]
  unfold pruneOldItems
  simp [h0, hfilter]

/-- The identity of a feed document under syncing: its id, url and
enabled flag — no sync or prune operation ever writes these fields. -/
def feedKey (f : Feed) : Nat × String × Bool :=
  (f.id, f.url, f.enabled)

/-- Mapping an id/url/enabled-preserving function over the feeds leaves
the key list unchanged. -/
theorem map_feedKey_map (l : List Feed) (g : Feed → Feed)
    (hg : ∀ f, feedKey (g f) = feedKey f) :
    (l.map g).map feedKey = l.map feedKey := by
  rw [List.map_map]
  exact List.map_congr_left fun f _ => hg f

/-- A conditional-by-id update with a key-preserving payload preserves
the key list. -/
theorem updateFeed_feedKeys (db : DB) (i : Nat) (g : Feed → Feed)
    (hg : ∀ f, feedKey (g f) = feedKey f) :
    (updateFeed db i g).feeds.map feedKey = db.feeds.map feedKey := by
  show (List.map (fun f => if f.id = i then g f else f) db.feeds).map feedKey = _
  exact map_feedKey_map db.feeds _ fun f => by
    by_cases h : f.id = i <;> simp [h, hg f]

/-- A per-feed sync preserves every feed's id, url and enabled flag. -/
theorem syncFeed_feedKeys (feed : Feed) (db : DB)
    (fetch : Except String FetchOk) (now : Int) (opts : Options) :
    (syncFeed feed db fetch now opts).2.feeds.map feedKey
      = db.feeds.map feedKey := by
  match fetch with
  | .error msg =>
    exact updateFeed_feedKeys db feed.id _ fun f => by simp [feedKey]
  | .ok res =>
    refine Eq.trans (updateFeed_feedKeys _ feed.id _ fun f => by simp [feedKey]) ?_
    rw [upsertItems_feeds]
    exact updateFeed_feedKeys db feed.id _ fun f => by simp [feedKey]

/-- The feed drive preserves every feed's id, url and enabled flag. -/
theorem syncFeeds_feedKeys (fs : List Feed) (db : DB)
    (oracle : String → Except String FetchOk) (now : Int) (opts : Options) :
    (syncFeeds fs db oracle now opts).2.feeds.map feedKey
      = db.feeds.map feedKey := by
  induction fs generalizing db with
  | nil => rfl
  | cons f tl ih =>
    show (syncFeeds tl (syncFeed f db (oracle f.url) now opts).2
      oracle now opts).2.feeds.map feedKey = _
    rw [ih, syncFeed_feedKeys]

/-- Pruning preserves every feed's id, url and enabled flag. -/
theorem pruneOldItems_feedKeys (db : DB) (now : Int) (rd : Nat) :
    (pruneOldItems db now rd).2.feeds.map feedKey = db.feeds.map feedKey := by
  by_cases h0 : db.items.countP (prunable (pruneCutoff now rd)) = 0
  · have h1 : (pruneOldItems db now rd).2
        = { db with items := db.items.filter (fun d => !prunable (pruneCutoff now rd) d) } := by
      simp [pruneOldItems, h0]
    rw [h1]
  · have h1 : (pruneOldItems db now rd).2.feeds
        = db.feeds.map fun f =>
            { f with itemCount := countFeedItems { db with items := db.items.filter (fun d => !prunable (pruneCutoff now rd) d) } f.id } := by
      simp [pruneOldItems, h0]
    rw [h1]
    exact map_feedKey_map db.feeds _ fun f => rfl

/-- Equal key lists restrict to equal key lists of the enabled feeds. -/
theorem filter_enabled_feedKeys (l1 l2 : List Feed)
    (h : l1.map feedKey = l2.map feedKey) :
    (l1.filter (·.enabled)).map feedKey = (l2.filter (·.enabled)).map feedKey := by
  induction l1 generalizing l2 with
  | nil =>
    have : l2.map feedKey = [] := h.symm
    have hl2 : l2 = [] := List.map_eq_nil_iff.mp this
    rw [hl2]
  | cons a t1 ih =>
    match l2 with
    | [] => cases h
    | b :: t2 =>
      have hhead : feedKey a = feedKey b := by
        simpa using congrArg List.head? h
      have htail : t1.map feedKey = t2.map feedKey := by
        simpa using congrArg List.tail h
      have hen : a.enabled = b.enabled := by
        have := congrArg (fun p => p.2.2) hhead
        simpa [feedKey] using this
      by_cases hae : a.enabled
      · have hbe : b.enabled := by rw [← hen]; exact hae
        rw [List.filter_cons_of_pos (by simpa using hae),
          List.filter_cons_of_pos (by simpa using hbe)]
        simp only [List.map_cons]
        rw [hhead, ih t2 htail]
      · have hbe : ¬b.enabled := by rw [← hen]; exact hae
        rw [List.filter_cons_of_neg (by simpa using hae),
          List.filter_cons_of_neg (by simpa using hbe)]
        exact ih t2 htail

/-- An upsert loop all of whose keys are already present inserts nothing
and leaves the store untouched. -/
theorem upsertItems_zero_of_hasKey (fid : Nat) (t : String)
    (its : List NormItem) (now : Int) (db : DB)
    (h : ∀ it ∈ its, hasKey db fid it.guid = true) :
    upsertItems fid t its now db = (0, db) := by
  induction its generalizing db with
  | nil => rfl
  | cons it tl ih =>
    have hk := h it (List.mem_cons_self it tl)
    have hstep : upsertItem db fid it.guid
        { feedId := fid, feedTitle := t, item := it, fetchedAt := now }
        = (false, db) := by
      unfold upsertItem
      rw [if_pos hk]
    simp only [upsertItems, hstep]
    rw [ih db fun x hx => h x (List.mem_cons_of_mem it hx)]
    rfl

/-- A successful per-feed sync whose truncated items' keys are all
already present inserts nothing and leaves the items collection
untouched. -/
theorem syncFeed_zero_of_hasKey (feed : Feed) (db : DB) (res : FetchOk)
    (now : Int) (opts : Options)
    (h : ∀ it ∈ res.items.take (feedItemCap opts),
        hasKey db feed.id it.guid = true) :
    (syncFeed feed db (.ok res) now opts).1.itemsAdded = 0
    ∧ (syncFeed feed db (.ok res) now opts).2.items = db.items := by
  have hz := upsertItems_zero_of_hasKey feed.id res.feed.title
    (res.items.take (feedItemCap opts)) now
    (updateFeed db feed.id fun f =>
      { f with title := res.feed.title, siteUrl := res.feed.siteUrl,
               description := res.feed.description,
               imageUrl := res.feed.imageUrl,
               lastFetchedAt := some now, lastError := none })
    (fun it hit => h it hit)
  constructor
  · simp only [syncFeed, hz]
  · simp only [syncFeed, hz]
    rfl

/-- A feed drive over a store that already holds every key the oracle
serves (truncated) adds zero items on every feed and leaves the items
collection untouched. -/
theorem syncFeeds_zero_of_hasKey (fs : List Feed) (db : DB)
    (oracle : String → Except String FetchOk) (now : Int) (opts : Options)
    (h : ∀ f ∈ fs, ∀ res, oracle f.url = .ok res →
        ∀ it ∈ res.items.take (feedItemCap opts),
          hasKey db f.id it.guid = true) :
    (∀ r ∈ (syncFeeds fs db oracle now opts).1, r.itemsAdded = 0)
    ∧ (syncFeeds fs db oracle now opts).2.items = db.items := by
  induction fs generalizing db with
  | nil => exact ⟨fun r hr => absurd hr (List.not_mem_nil r), rfl⟩
  | cons f tl ih =>
    have hitems : (syncFeed f db (oracle f.url) now opts).2.items = db.items := by
      match hfetch : oracle f.url with
      | .error msg => rfl
      | .ok res =>
        exact (syncFeed_zero_of_hasKey f db res now opts
          (h f (List.mem_cons_self f tl) res hfetch)).2
    have hhead : (syncFeed f db (oracle f.url) now opts).1.itemsAdded = 0 := by
      match hfetch : oracle f.url with
      | .error msg => rfl
      | .ok res =>
        exact (syncFeed_zero_of_hasKey f db res now opts
          (h f (List.mem_cons_self f tl) res hfetch)).1
    have htl := ih (syncFeed f db (oracle f.url) now opts).2
      (fun f2 hf2 res hres it hit => by
        rw [hasKey_congr_items _ db f2.id it.guid hitems]
        exact h f2 (List.mem_cons_of_mem f hf2) res hres it hit)
    constructor
    · intro r hr
      rcases List.mem_cons.mp hr with rfl | hr2
      · exact hhead
      · exact htl.1 r hr2
    · show (syncFeeds tl (syncFeed f db (oracle f.url) now opts).2
        oracle now opts).2.items = db.items
      rw [htl.2, hitems]

/-- Equal key lists give key-matching members. -/
theorem exists_key_of_map_eq (l1 l2 : List Feed)
    (h : l1.map feedKey = l2.map feedKey) :
    ∀ f ∈ l1, ∃ f2 ∈ l2, feedKey f2 = feedKey f := by
  intro f hf
  have hmem : feedKey f ∈ l2.map feedKey := by
    rw [← h]
    exact List.mem_map_of_mem feedKey hf
  rcases List.mem_map.mp hmem with ⟨f2, hf2, hk⟩
  exact ⟨f2, hf2, hk⟩

/-- Equal key lists have equal emptiness. -/
theorem isEmpty_of_map_feedKey_eq (l1 l2 : List Feed)
    (h : l1.map feedKey = l2.map feedKey) : l1.isEmpty = l2.isEmpty := by
  cases l1 <;> cases l2 <;> simp_all

/-- C3 (amended): running the same cycle twice against an unchanged
remote feed yields `itemsAdded = 0` on the second run and leaves the
items collection exactly unchanged, provided pruning deletes nothing the
fetch re-supplies — here: every already-stored item and every fetched
(truncated) item is within the retention window or undated. Without
that proviso the claim fails (see the counterexample): the first run's
prune pass deletes a stale fetched item and the second run re-inserts
it. The insert-only-if-absent upsert itself is unconditional: stored
documents are never mutated, only inserted or pruned. -/
theorem runSync_idempotent_no_reprune (db : DB) (st1 st2 : SyncState)
    (oracle : String → Except String FetchOk) (now : Int) (opts : Options)
    (h1 : st1.syncing = false) (h2 : st2.syncing = false)
    (hstored : ∀ d ∈ db.items,
        freshItem (pruneCutoff now (runSyncRetentionDays opts)) d.item)
    (hfetched : ∀ f ∈ db.feeds, f.enabled = true →
        ∀ res, oracle f.url = .ok res →
        ∀ it ∈ res.items.take (feedItemCap opts),
          freshItem (pruneCutoff now (runSyncRetentionDays opts)) it) :
    ∃ dbA, (runSync (some db) st1 oracle (.ok ()) now opts).2.2 = some dbA
      ∧ (∀ d ∈ db.items, d ∈ dbA.items)
      ∧ ∃ fp pr st' dbB,
          runSync (some dbA) st2 oracle (.ok ()) now opts
            = (.ok fp 0 pr, st', some dbB)
          ∧ dbB.items = dbA.items := by
  by_cases hemp : (db.feeds.filter (·.enabled)).isEmpty = true
  · refine ⟨db, by simp [runSync, h1, hemp], fun d hd => hd, 0, none,
      { st2 with
        syncing := false
        lastError := none
        feedsProcessed := 0
        itemsAdded := 0
        lastSync := some now }, db, ?_, rfl⟩
    simp [runSync, h2, hemp]
  · have hAllFresh : ∀ d ∈ (syncFeeds (db.feeds.filter (·.enabled)) db oracle
        now opts).2.items,
        prunable (pruneCutoff now (runSyncRetentionDays opts)) d = false := by
      intro d hd
      rcases syncFeeds_items_from _ db oracle now opts d hd with
        hl | ⟨f, hf, res, hres, hit⟩
      · exact prunable_eq_false_of_fresh _ _ (hstored d hl)
      · have hf' := List.mem_filter.mp hf
        exact prunable_eq_false_of_fresh _ _
          (hfetched f hf'.1 hf'.2 res hres d.item hit)
    have hprune := pruneOldItems_eq_self
      (syncFeeds (db.feeds.filter (·.enabled)) db oracle now opts).2 now
      (runSyncRetentionDays opts) hAllFresh
    have hrun1 : (runSync (some db) st1 oracle (.ok ()) now opts).2.2
        = some (syncFeeds (db.feeds.filter (·.enabled)) db oracle now opts).2 := by
      simp [runSync, h1, hemp, hprune]
    have hkeep : ∀ d ∈ db.items,
        d ∈ (syncFeeds (db.feeds.filter (·.enabled)) db oracle now opts).2.items := by
      intro d hd
      rcases syncFeeds_items_append (db.feeds.filter (·.enabled)) db oracle
        now opts with ⟨tail, htail⟩
      rw [htail]
      exact List.mem_append_left tail hd
    have hkeys : (syncFeeds (db.feeds.filter (·.enabled)) db oracle
        now opts).2.feeds.map feedKey = db.feeds.map feedKey :=
      syncFeeds_feedKeys _ db oracle now opts
    have henkeys : ((syncFeeds (db.feeds.filter (·.enabled)) db oracle
          now opts).2.feeds.filter (·.enabled)).map feedKey
        = (db.feeds.filter (·.enabled)).map feedKey :=
      filter_enabled_feedKeys _ _ hkeys
    have hemp2 : ¬((syncFeeds (db.feeds.filter (·.enabled)) db oracle
        now opts).2.feeds.filter (·.enabled)).isEmpty = true := by
      rw [isEmpty_of_map_feedKey_eq _ (db.feeds.filter (·.enabled)) henkeys]
      exact hemp
    have hpresent : ∀ f2 ∈ (syncFeeds (db.feeds.filter (·.enabled)) db oracle
        now opts).2.feeds.filter (·.enabled),
        ∀ res, oracle f2.url = .ok res →
        ∀ it ∈ res.items.take (feedItemCap opts),
          hasKey (syncFeeds (db.feeds.filter (·.enabled)) db oracle
            now opts).2 f2.id it.guid = true := by
      intro f2 hf2 res hres it hit
      rcases exists_key_of_map_eq _ _ henkeys f2 hf2 with ⟨f, hf, hk⟩
      have hid : f.id = f2.id := congrArg (fun p => p.1) hk
      have hurl : f.url = f2.url := congrArg (fun p => p.2.1) hk
      have hh := syncFeeds_hasKey (db.feeds.filter (·.enabled)) db oracle
        now opts f hf res (by rw [hurl]; exact hres) it hit
      rw [hid] at hh
      exact hh
    have hzero := syncFeeds_zero_of_hasKey _
      (syncFeeds (db.feeds.filter (·.enabled)) db oracle now opts).2
      oracle now opts hpresent
    have hprune2 := pruneOldItems_eq_self
      (syncFeeds ((syncFeeds (db.feeds.filter (·.enabled)) db oracle
          now opts).2.feeds.filter (·.enabled))
        (syncFeeds (db.feeds.filter (·.enabled)) db oracle now opts).2
        oracle now opts).2 now (runSyncRetentionDays opts)
      (by
        intro d hd
        rw [hzero.2] at hd
        exact hAllFresh d hd)
    have hagg0 : (aggregateResults
        { st2 with syncing := true, lastError := none,
                   feedsProcessed := 0, itemsAdded := 0 }
        (syncFeeds ((syncFeeds (db.feeds.filter (·.enabled)) db oracle
            now opts).2.feeds.filter (·.enabled))
          (syncFeeds (db.feeds.filter (·.enabled)) db oracle now opts).2
          oracle now opts).1).itemsAdded = 0 := by
      rw [aggregateResults_spec]
      show 0 + _ = 0
      rw [Nat.zero_add]
      apply List.sum_eq_zero
      intro x hx
      rcases List.mem_map.mp hx with ⟨r, hr, hxr⟩
      rw [← hxr]
      exact hzero.1 r hr
    have hrun2 : runSync
        (some (syncFeeds (db.feeds.filter (·.enabled)) db oracle now opts).2)
        st2 oracle (.ok ()) now opts
        = (.ok (aggregateResults
              { st2 with syncing := true, lastError := none,
                         feedsProcessed := 0, itemsAdded := 0 }
              (syncFeeds ((syncFeeds (db.feeds.filter (·.enabled)) db oracle
                  now opts).2.feeds.filter (·.enabled))
                (syncFeeds (db.feeds.filter (·.enabled)) db oracle now opts).2
                oracle now opts).1).feedsProcessed
            (aggregateResults
              { st2 with syncing := true, lastError := none,
                         feedsProcessed := 0, itemsAdded := 0 }
              (syncFeeds ((syncFeeds (db.feeds.filter (·.enabled)) db oracle
                  now opts).2.feeds.filter (·.enabled))
                (syncFeeds (db.feeds.filter (·.enabled)) db oracle now opts).2
                oracle now opts).1).itemsAdded
            (some 0),
          { aggregateResults
              { st2 with syncing := true, lastError := none,
                         feedsProcessed := 0, itemsAdded := 0 }
              (syncFeeds ((syncFeeds (db.feeds.filter (·.enabled)) db oracle
                  now opts).2.feeds.filter (·.enabled))
                (syncFeeds (db.feeds.filter (·.enabled)) db oracle now opts).2
                oracle now opts).1
              with lastSync := some now, syncing := false },
          some (syncFeeds ((syncFeeds (db.feeds.filter (·.enabled)) db oracle
              now opts).2.feeds.filter (·.enabled))
            (syncFeeds (db.feeds.filter (·.enabled)) db oracle now opts).2
            oracle now opts).2) := by
      simp [runSync, h2, hemp2, hprune2]
    refine ⟨(syncFeeds (db.feeds.filter (·.enabled)) db oracle now opts).2,
      hrun1, hkeep,
      (aggregateResults
        { st2 with syncing := true, lastError := none,
                   feedsProcessed := 0, itemsAdded := 0 }
        (syncFeeds ((syncFeeds (db.feeds.filter (·.enabled)) db oracle
            now opts).2.feeds.filter (·.enabled))
          (syncFeeds (db.feeds.filter (·.enabled)) db oracle now opts).2
          oracle now opts).1).feedsProcessed,
      some 0,
      { aggregateResults
          { st2 with syncing := true, lastError := none,
                     feedsProcessed := 0, itemsAdded := 0 }
          (syncFeeds ((syncFeeds (db.feeds.filter (·.enabled)) db oracle
              now opts).2.feeds.filter (·.enabled))
            (syncFeeds (db.feeds.filter (·.enabled)) db oracle now opts).2
            oracle now opts).1
          with lastSync := some now, syncing := false },
      (syncFeeds ((syncFeeds (db.feeds.filter (·.enabled)) db oracle
          now opts).2.feeds.filter (·.enabled))
        (syncFeeds (db.feeds.filter (·.enabled)) db oracle now opts).2
        oracle now opts).2, ?_, hzero.2⟩
    rw [hrun2, hagg0]

/-- An oracle serving one fresh (within-retention) item on every feed. -/
def freshOracle : String → Except String FetchOk := fun _ =>
  .ok ⟨sampleMeta, [sampleItem]⟩

/-- C3 counterexample: against an unchanged remote feed serving a single
item older than the retention window, the first cycle inserts it and
immediately prunes it, and the second identical cycle re-inserts it —
reporting `itemsAdded = 1`, not 0. -/
theorem runSync_stale_item_reinserted_cex :
    (runSync (some { feeds := [sampleFeed], items := [] }) idleState
        staleOracle (.ok ()) sampleNow defOpts).1 = .ok 1 1 (some 1)
    ∧ (runSync (runSync (some { feeds := [sampleFeed], items := [] })
          idleState staleOracle (.ok ()) sampleNow defOpts).2.2 idleState
        staleOracle (.ok ()) sampleNow defOpts).1 = .ok 1 1 (some 1) :=
  ⟨by decide, by decide⟩

/-- C3 witness: over a one-feed store and an oracle serving one fresh
item, the second identical cycle reports zero items added and leaves the
items collection exactly unchanged. -/
theorem runSync_idempotent_no_reprune_witness :
    ∃ dbA, (runSync (some { feeds := [sampleFeed], items := [] }) idleState
        freshOracle (.ok ()) sampleNow defOpts).2.2 = some dbA
      ∧ (∀ d ∈ ({ feeds := [sampleFeed], items := [] } : DB).items,
          d ∈ dbA.items)
      ∧ ∃ fp pr st' dbB,
          runSync (some dbA) idleState freshOracle (.ok ()) sampleNow defOpts
            = (.ok fp 0 pr, st', some dbB)
          ∧ dbB.items = dbA.items :=
  runSync_idempotent_no_reprune { feeds := [sampleFeed], items := [] }
    idleState idleState freshOracle sampleNow defOpts rfl rfl
    (fun d hd => absurd hd (List.not_mem_nil d))
    (by
      intro f hf hen res hres it hit
      cases hres
      have hit' : it = sampleItem := by
        simpa [feedItemCap, jsOrNat, defOpts] using hit
      subst hit'
      intro p hp
      have hp2 : (some (2592000001 : Int)) = some p := by
        rw [show sampleItem.pubDate = some (2592000001 : Int) from rfl] at hp
        exact hp
      have hp' : p = (2592000001 : Int) := (Option.some.inj hp2).symm
      subst hp'
      decide)
